import Mathlib

/-!
Verification of the keystroke-capture core of spelling_master.py.

Strings are modelled as lists of characters (Python strings are sequences of
code points; all words and buffers here are character sequences).  A raw unit
delivered by the Getch layer is an `Option Char`: `none` models the case in
which the Windows reader discards a function-key lead byte and returns None
(and likewise an undecodable byte decoded to the empty string), `some c`
models a one-character string.
-/

namespace SpellingMaster

/-- Models the Python built-in str.isprintable for a single character, exact
on the Latin-1 range (control characters below 0x20, DEL 0x7f, the C1 range
0x80-0x9f, NBSP 0xa0 and SHY 0xad are not printable; everything else in that
range, including the space character, is printable).  Code points at or above
0x100 are approximated as printable; no claim exercises a non-printable
character outside Latin-1. -/
def pyIsPrintable (c : Char) : Bool :=
  let n := c.toNat
  if n < 0x20 then false
  else if n = 0x7f then false
  else if 0x80 ≤ n ∧ n ≤ 0x9f then false
  else if n = 0xa0 ∨ n = 0xad then false
  else true

/-- Models membership in the Python str.strip default whitespace set,
restricted to the ASCII whitespace characters (space, tab, newline, carriage
return, vertical tab, form feed).  Non-ASCII Unicode whitespace is omitted;
no claim exercises it. -/
def pyIsSpace (c : Char) : Bool :=
  c = ' ' ∨ c = '\t' ∨ c = '\n' ∨ c = '\r' ∨ c = '\x0b' ∨ c = '\x0c'

/-- Models the Python str.strip method with no arguments: remove leading and
trailing whitespace characters. -/
def pyStrip (s : List Char) : List Char :=
  ((s.dropWhile pyIsSpace).reverse.dropWhile pyIsSpace).reverse

/-- The semantic key events of the spec data model, used to state claims.
The source has no such type; `classify` below maps each raw unit to its
event following the branch cascade of smart_input. -/
inductive KeyEvent where
  | printable (c : Char)
  | backspace
  | assistNext
  | submit
  | interrupt
  | ignored
deriving DecidableEq

/-- Classification of one raw unit into a key event, mirroring the branch
order of the smart_input loop (src/spelling_master.py lines 76-115):
Enter, then Tab, then Backspace codes, then printable, then Ctrl+C, else
fall through (ignored). -/
def classify : Option Char → KeyEvent
  | none => .ignored
  | some c =>
    if c = '\r' ∨ c = '\n' then .submit
    else if c = '\t' then .assistNext
    else if c = '\x08' ∨ c = '\x7f' then .backspace
    else if pyIsPrintable c then .printable c
    else if c = '\x03' then .interrupt
    else .ignored

/-- Result of handling one raw unit inside the smart_input loop: continue
with a new buffer, return the joined buffer (Enter), exit the process
(Ctrl+C via sys.exit 0), or raise IndexError.  The second component records
the strings written to stdout during that step. -/
inductive StepOut where
  | cont (buf : List Char) (echo : List String)
  | ret (s : List Char) (echo : List String)
  | exit (code : Nat) (echo : List String)
  | err (echo : List String)
deriving DecidableEq

/-- One iteration of the while loop of smart_input
(src/spelling_master.py lines 76-115), translated branch for branch:
Enter returns the joined buffer after writing a newline; Tab appends
target_word[current_len] when current_len < target_len (the `err` arm models
the IndexError Python would raise on an out-of-range index); Backspace pops
the last buffer element when the buffer is non-empty and writes the
back-space-back erase sequence; a printable character is appended and
echoed; Ctrl+C calls sys.exit(0); everything else falls through. -/
def smartStep (target buf : List Char) : Option Char → StepOut
  | none => .cont buf []
  | some c =>
    if c = '\r' ∨ c = '\n' then .ret buf ["\n"]
    else if c = '\t' then
      (if buf.length < target.length then
        match target.get? buf.length with
        | some nc => .cont (buf ++ [nc]) [String.mk [nc]]
        | none => .err []
      else .cont buf [])
    else if c = '\x08' ∨ c = '\x7f' then
      (if 0 < buf.length then .cont buf.dropLast ["\x08 \x08"] else .cont buf [])
    else if pyIsPrintable c then .cont (buf ++ [c]) [String.mk [c]]
    else if c = '\x03' then .exit 0 []
    else .cont buf []

/-- The same step expressed over the semantic key event; `smartStep_eq`
below proves that the source cascade realises exactly this event table. -/
def stepOfEvent (target buf : List Char) : KeyEvent → StepOut
  | .submit => .ret buf ["\n"]
  | .assistNext =>
    if buf.length < target.length then
      match target.get? buf.length with
      | some nc => .cont (buf ++ [nc]) [String.mk [nc]]
      | none => .err []
    else .cont buf []
  | .backspace =>
    if 0 < buf.length then .cont buf.dropLast ["\x08 \x08"] else .cont buf []
  | .printable c => .cont (buf ++ [c]) [String.mk [c]]
  | .interrupt => .exit 0 []
  | .ignored => .cont buf []

/-- Outcome of running the smart_input loop on a finite list of raw units:
the loop returned a string, exited the process, raised IndexError, or
consumed every unit and is blocked waiting for the next keystroke. -/
inductive Outcome where
  | submitted (s : List Char)
  | exited (code : Nat)
  | indexError
  | pending (buf : List Char)
deriving DecidableEq

/-- The while loop of smart_input, driven by a finite list of raw units. -/
def runLoop (target : List Char) : List Char → List (Option Char) → Outcome
  | buf, [] => .pending buf
  | buf, k :: rest =>
    match smartStep target buf k with
    | .cont b _ => runLoop target b rest
    | .ret s _ => .submitted s
    | .exit code _ => .exited code
    | .err _ => .indexError

/-- smart_input (src/spelling_master.py lines 62-115): seed the buffer with
target_word[0] (IndexError when the target is empty) and enter the loop. -/
def smartInput (target : List Char) (keys : List (Option Char)) : Outcome :=
  match target.get? 0 with
  | none => .indexError
  | some c0 => runLoop target [c0] keys

/-- One comparison step of the drill loop in main
(src/spelling_master.py lines 131-148): fetch words[index] and advance the
index exactly when user_input.strip() == target.  The while guard keeps
index in range, so an out-of-range index means the loop body is not entered
and the index is unchanged. -/
def mainStep (words : List (List Char)) (index : Nat) (userInput : List Char) : Nat :=
  match words.get? index with
  | some target => if pyStrip userInput = target then index + 1 else index
  | none => index

/-- Outcome of the whole drill loop of main driven by one list of raw units
per smart_input call: all words completed, process exited (sys.exit), an
IndexError, or the run is blocked waiting for more keystrokes or attempts. -/
inductive DrillOutcome where
  | finished
  | exited (code : Nat)
  | indexError
  | blocked
deriving DecidableEq

/-- The while loop of main (src/spelling_master.py lines 131-148), driven by
one raw-unit script per call to smart_input.  A SystemExit raised inside
smart_input propagates out of the loop uncaught, which terminates the whole
process with the carried status. -/
def drillRun (words : List (List Char)) : Nat → List (List (Option Char)) → DrillOutcome
  | index, [] => if words.length ≤ index then .finished else .blocked
  | index, script :: rest =>
    match words.get? index with
    | none => .finished
    | some target =>
      match smartInput target script with
      | .submitted s => drillRun words (mainStep words index s) rest
      | .exited code => .exited code
      | .indexError => .indexError
      | .pending _ => .blocked

/-- Modelled from Python runtime semantics: an interpreter whose main
function returns normally exits the process with status 0, the conventional
success status. -/
def normalCompletionExitCode : Nat := 0

/-- Terminal state seen by the POSIX single-character reader: the current
attribute blob (abstracted as a number; tcgetattr and tcsetattr read and
write it whole) and the pending standard-input stream. -/
structure Term where
  attrs : Nat
  input : List Char
deriving DecidableEq

/-- Abstract value of the attribute blob installed by tty.setraw. -/
def rawModeAttrs : Nat := 1

/-- termios.tcgetattr: read the current attribute blob. -/
def tcgetattr (t : Term) : Nat := t.attrs

/-- termios.tcsetattr with TCSADRAIN: install an attribute blob. -/
def tcsetattr (t : Term) (a : Nat) : Term := { t with attrs := a }

/-- tty.setraw: install the raw-mode attribute blob. -/
def setraw (t : Term) : Term := { t with attrs := rawModeAttrs }

/-- Error raised by a failing read. -/
inductive ReadErr where
  | ioError
deriving DecidableEq

/-- sys.stdin.read(1): deliver the next pending character; a failing read
(modelled as reading from an exhausted stream) raises. -/
def readOne (t : Term) : Except ReadErr (Char × Term) :=
  match t.input with
  | [] => .error .ioError
  | c :: rest => .ok (c, { t with input := rest })

/-- The body of the __call__ method of _GetchUnix
(src/spelling_master.py lines 35-44): save the current attributes, enter raw
mode, read one character, and restore the saved attributes in a finally
block — on the normal path before returning the character, and on the
failure path before the exception propagates. -/
def getchUnixCall (t : Term) : Except ReadErr Char × Term :=
  let old := tcgetattr t
  let t1 := setraw t
  match readOne t1 with
  | .ok (c, t2) => (.ok c, tcsetattr t2 old)
  | .error e => (.error e, tcsetattr t1 old)

/-- The source cascade of smart_input handles each raw unit exactly as the
event table of the spec prescribes for its classification. -/
theorem smartStep_eq (target buf : List Char) (k : Option Char) :
    smartStep target buf k = stepOfEvent target buf (classify k) := by
  cases k with
  | none => rfl
  | some c =>
    simp only [smartStep, classify]
    split_ifs <;> simp [stepOfEvent, *]

/-- Running the loop on printable units followed by Enter appends each typed
character to the buffer in order and returns the joined result. -/
lemma runLoop_printable_submit (t : List Char) (cs : List Char) :
    ∀ buf : List Char, (∀ c ∈ cs, classify (some c) = .printable c) →
      runLoop t buf (cs.map some ++ [some '\r']) = .submitted (buf ++ cs) := by
  induction cs with
  | nil =>
    intro buf _
    have hs : smartStep t buf (some '\r') = .ret buf ["\n"] := rfl
    simp only [List.map_nil, List.nil_append, runLoop, hs, List.append_nil]
  | cons c cs ih =>
    intro buf h
    have hc : classify (some c) = .printable c := h c (List.mem_cons_self c cs)
    have hs : smartStep t buf (some c) = .cont (buf ++ [c]) [String.mk [c]] := by
      rw [smartStep_eq, hc]; rfl
    simp only [List.map_cons, List.cons_append, runLoop, hs, List.append_eq]
    rw [ih (buf ++ [c]) fun d hd => h d (List.mem_cons_of_mem c hd)]
    simp

/-- A run of assist events alone keeps the loop pending and never pushes the
buffer length past the target length. -/
lemma runLoop_assist_only (t : List Char) (keys : List (Option Char)) :
    ∀ buf : List Char, (∀ k ∈ keys, classify k = .assistNext) → buf.length ≤ t.length →
      ∃ buf2, runLoop t buf keys = .pending buf2 ∧ buf2.length ≤ t.length := by
  induction keys with
  | nil => intro buf _ hle; exact ⟨buf, rfl, hle⟩
  | cons k keys ih =>
    intro buf h hle
    have hk : classify k = .assistNext := h k (List.mem_cons_self k keys)
    have hs := smartStep_eq t buf k
    rw [hk] at hs
    simp only [stepOfEvent] at hs
    by_cases hlt : buf.length < t.length
    · rw [if_pos hlt, List.get?_eq_get hlt] at hs
      simp only [runLoop, hs]
      exact ih (buf ++ [t.get ⟨buf.length, hlt⟩])
        (fun k2 hk2 => h k2 (List.mem_cons_of_mem k hk2)) (by simpa using hlt)
    · rw [if_neg hlt] at hs
      simp only [runLoop, hs]
      exact ih buf (fun k2 hk2 => h k2 (List.mem_cons_of_mem k hk2)) hle

/-- Extending the unit list of a still-pending run continues the loop from
the pending buffer. -/
lemma runLoop_append_of_pending (t : List Char) (s1 : List (Option Char)) :
    ∀ (b buf : List Char) (s2 : List (Option Char)),
      runLoop t b s1 = .pending buf → runLoop t b (s1 ++ s2) = runLoop t buf s2 := by
  induction s1 with
  | nil =>
    intro b buf s2 h
    simp only [runLoop, Outcome.pending.injEq] at h
    rw [List.nil_append, h]
  | cons k s1 ih =>
    intro b buf s2 h
    rw [List.cons_append]
    cases hstep : smartStep t b k with
    | cont b2 e =>
      simp only [runLoop, hstep] at h ⊢
      exact ih b2 buf s2 h
    | ret s e => simp [runLoop, hstep] at h
    | exit c e => simp [runLoop, hstep] at h
    | err e => simp [runLoop, hstep] at h

/-- The source never reaches the IndexError arm of the Tab branch: the
length guard makes target_word[current_len] defined whenever read. -/
lemma smartStep_ne_err (t buf : List Char) (k : Option Char) (e : List String) :
    smartStep t buf k ≠ .err e := by
  rw [smartStep_eq]
  cases classify k with
  | assistNext =>
    simp only [stepOfEvent]
    by_cases hlt : buf.length < t.length
    · rw [if_pos hlt, List.get?_eq_get hlt]; simp
    · rw [if_neg hlt]; simp
  | printable c => simp [stepOfEvent]
  | backspace => simp only [stepOfEvent]; by_cases h0 : 0 < buf.length <;> simp [h0]
  | submit => simp [stepOfEvent]
  | interrupt => simp [stepOfEvent]
  | ignored => simp [stepOfEvent]

/-- The loop itself never raises IndexError, whatever the units. -/
lemma runLoop_ne_indexError (t : List Char) (keys : List (Option Char)) :
    ∀ buf : List Char, runLoop t buf keys ≠ .indexError := by
  induction keys with
  | nil => intro buf; simp [runLoop]
  | cons k keys ih =>
    intro buf
    cases hstep : smartStep t buf k with
    | cont b e => simp only [runLoop, hstep]; exact ih b
    | ret s e => simp [runLoop, hstep]
    | exit c e => simp [runLoop, hstep]
    | err e => exact absurd hstep (smartStep_ne_err t buf k e)

/-- C1, counterexample: the drill comparison is not untrimmed structural
equality.  With target "hi", the returned string " hi" (producible by a
Backspace on the seed, a space, then h, i, Enter) differs from "hi" only in
surrounding whitespace, yet the index advances from 0 to 1 because main
compares user_input.strip() to the target. -/
theorem whitespace_input_advances :
    smartInput ['h','i'] [some '\x7f', some ' ', some 'h', some 'i', some '\r'] =
      .submitted [' ','h','i']
    ∧ mainStep [['h','i']] 0 [' ','h','i'] = 1
    ∧ ([' ','h','i'] : List Char) ≠ ['h','i'] := by decide

/-- C1, amended: for every word book, index in range with target
words[index], and returned string, the drill loop advances the index if and
only if the returned string equals the target after stripping leading and
trailing whitespace (the Python str.strip comparison of main, line 143);
when the stripped string differs the index is unchanged and the same target
is retried. -/
theorem advance_iff_stripped_equal (words : List (List Char)) (index : Nat)
    (target input : List Char) (h : words.get? index = some target) :
    (mainStep words index input = index + 1 ↔ pyStrip input = target)
    ∧ (pyStrip input ≠ target → mainStep words index input = index) := by
  refine ⟨⟨fun hadv => ?_, fun heq => ?_⟩, fun hne => ?_⟩
  · by_contra hne
    simp only [mainStep, h, if_neg hne] at hadv
    omega
  · simp only [mainStep, h]
    rw [if_pos heq]
  · simp only [mainStep, h]
    rw [if_neg hne]

/-- C1 witness: instantiated at word book ["hi"], index 0, input " hi". -/
theorem advance_iff_stripped_equal_witness :
    mainStep [['h','i']] 0 [' ','h','i'] = 0 + 1 ↔ pyStrip [' ','h','i'] = ['h','i'] :=
  (advance_iff_stripped_equal [['h','i']] 0 ['h','i'] [' ','h','i'] rfl).1

/-- C2: for every non-empty target and every sequence of printable events
followed by Submit, the returned string is the seeded first character of the
target followed by the typed characters in order; the seed is not replaced
or consumed by the first keystroke. -/
theorem printable_run_returns_seed_then_typed (t0 : Char) (trest cs : List Char)
    (hp : ∀ c ∈ cs, classify (some c) = .printable c) :
    smartInput (t0 :: trest) (cs.map some ++ [some '\r']) = .submitted (t0 :: cs) := by
  have h := runLoop_printable_submit (t0 :: trest) cs [t0] hp
  simpa [smartInput] using h

/-- C2 witness: target "cat", keystrokes c, a, t, Enter, returned string
"ccat". -/
theorem printable_run_witness :
    (∀ c ∈ (['c','a','t'] : List Char), classify (some c) = KeyEvent.printable c)
    ∧ smartInput ['c','a','t'] ((['c','a','t'] : List Char).map some ++ [some '\r']) =
        .submitted ['c','c','a','t'] :=
  ⟨by decide, printable_run_returns_seed_then_typed 'c' ['a','t'] ['c','a','t'] (by decide)⟩

/-- C3: an AssistNext event with buffer length below the target length
appends exactly the target character at the index equal to the buffer
length and echoes it; with buffer length at or above the target length it
is a no-op; and a run of AssistNext events alone never pushes the buffer
length past the target length. -/
theorem assist_next_behavior (t buf : List Char) (k : Option Char)
    (hk : classify k = .assistNext) :
    (∀ h : buf.length < t.length,
        smartStep t buf k =
          .cont (buf ++ [t.get ⟨buf.length, h⟩]) [String.mk [t.get ⟨buf.length, h⟩]])
    ∧ (t.length ≤ buf.length → smartStep t buf k = .cont buf [])
    ∧ (∀ keys : List (Option Char), (∀ k2 ∈ keys, classify k2 = .assistNext) →
        buf.length ≤ t.length →
        ∃ buf2, runLoop t buf keys = .pending buf2 ∧ buf2.length ≤ t.length) := by
  have hs := smartStep_eq t buf k
  rw [hk] at hs
  simp only [stepOfEvent] at hs
  refine ⟨fun h => ?_, fun h => ?_, fun keys hks hle => runLoop_assist_only t keys buf hks hle⟩
  · rw [hs, if_pos h, List.get?_eq_get h]
  · rw [hs, if_neg (Nat.not_lt.mpr h)]

/-- C3 witness: target "app", Tab from buffer "a" appends the letter p and
echoes it; Tab from the full-length buffer "axy" is a no-op. -/
theorem assist_next_behavior_witness :
    classify (some '\t') = KeyEvent.assistNext
    ∧ smartStep ['a','p','p'] ['a'] (some '\t') = .cont ['a','p'] [String.mk ['p']]
    ∧ smartStep ['a','p','p'] ['a','x','y'] (some '\t') = .cont ['a','x','y'] [] := by
  refine ⟨by decide, ?_, ?_⟩
  · have h := (assist_next_behavior ['a','p','p'] ['a'] (some '\t') (by decide)).1 (by decide)
    rw [h]; decide
  · exact (assist_next_behavior ['a','p','p'] ['a','x','y'] (some '\t') (by decide)).2.1
      (by decide)

/-- C4: a Backspace event on a non-empty buffer removes exactly the most
recently appended character (LIFO) and emits the back-space-back erase
sequence; on an empty buffer it is a no-op (the length, a natural number,
never goes negative); and for target "dog" with keystrokes d, Backspace,
Enter the returned string is "d". -/
theorem backspace_behavior (t buf : List Char) (k : Option Char)
    (hk : classify k = .backspace) :
    (∀ (front : List Char) (z : Char), buf = front ++ [z] →
        smartStep t buf k = .cont front ["\x08 \x08"])
    ∧ (buf = [] → smartStep t buf k = .cont buf [])
    ∧ smartInput ['d','o','g'] [some 'd', some '\x7f', some '\r'] = .submitted ['d'] := by
  have hs := smartStep_eq t buf k
  rw [hk] at hs
  simp only [stepOfEvent] at hs
  refine ⟨?_, ?_, by decide⟩
  · rintro front z rfl
    rw [hs, if_pos (by simp), List.dropLast_concat]
  · rintro rfl
    rw [hs]
    decide

/-- C4 witness: target "dog", Backspace from buffer "dd" drops the second d
only; Backspace from the empty buffer is a no-op. -/
theorem backspace_behavior_witness :
    classify (some '\x7f') = KeyEvent.backspace
    ∧ smartStep ['d','o','g'] ['d','d'] (some '\x7f') = .cont ['d'] ["\x08 \x08"]
    ∧ smartStep ['d','o','g'] [] (some '\x7f') = .cont [] [] :=
  ⟨by decide,
    (backspace_behavior ['d','o','g'] ['d','d'] (some '\x7f') (by decide)).1 ['d'] 'd' rfl,
    (backspace_behavior ['d','o','g'] [] (some '\x7f') (by decide)).2.1 rfl⟩

/-- C5: for target "apple", the keystrokes Tab, Tab, Enter make smart_input
return exactly "app": the seed letter a plus the two assist-completed
letters p and p, joined in order with no trimming. -/
theorem apple_assist_scenario :
    smartInput ['a','p','p','l','e'] [some '\t', some '\t', some '\r'] =
      .submitted ['a','p','p'] := by decide

/-- C6, counterexample: the interrupt path calls sys.exit(0), so the process
exit status is 0 — the very status of a normally completed run — not a
distinct status indicating user-initiated cancellation.  Shown on word book
["hi"] with Ctrl+C as the first keystroke. -/
theorem interrupt_exit_code_zero :
    drillRun [['h','i']] 0 [[some '\x03']] = .exited 0
    ∧ normalCompletionExitCode = 0 := by decide

/-- C6, amended: an Interrupt event at any reachable point of a capture
terminates the whole process immediately (the remaining keystrokes of the
attempt and all later attempts are never consumed, and the drill loop does
not resume), and the carried exit status is 0 — the same status as normal
completion, not a distinct cancellation status. -/
theorem interrupt_terminates_whole_process (words : List (List Char)) (index : Nat)
    (target buf : List Char) (scripts : List (List (Option Char)))
    (s1 rest : List (Option Char))
    (hw : words.get? index = some target)
    (hp : smartInput target s1 = .pending buf) :
    drillRun words index ((s1 ++ some '\x03' :: rest) :: scripts) = .exited 0 := by
  cases target with
  | nil => simp [smartInput] at hp
  | cons t0 ts =>
    simp only [smartInput, List.get?_cons_zero] at hp
    have hint : smartStep (t0 :: ts) buf (some '\x03') = .exit 0 [] := rfl
    have hrun : runLoop (t0 :: ts) [t0] (s1 ++ some '\x03' :: rest) = .exited 0 := by
      rw [runLoop_append_of_pending (t0 :: ts) s1 [t0] buf (some '\x03' :: rest) hp]
      simp only [runLoop, hint]
    have hsm : smartInput (t0 :: ts) (s1 ++ some '\x03' :: rest) = .exited 0 := by
      simpa [smartInput] using hrun
    simp only [drillRun, hw, hsm]

/-- C6 witness: word book ["hi"], one printable keystroke then Ctrl+C. -/
theorem interrupt_terminates_whole_process_witness :
    drillRun [['h','i']] 0 [[some 'x', some '\x03', some 'q'] ] = .exited 0 :=
  interrupt_terminates_whole_process [['h','i']] 0 ['h','i'] ['h','x'] []
    [some 'x'] [some 'q'] rfl (by decide)

/-- C7: a unit classified as Ignored (a discarded function-key lead byte,
modelled by `none`, or any unit falling through every branch of the
cascade) leaves the buffer unchanged, produces no echo output, and the
capture loop simply continues with the remaining keystrokes. -/
theorem ignored_event_noop (t buf : List Char) (k : Option Char)
    (rest : List (Option Char)) (hk : classify k = .ignored) :
    smartStep t buf k = .cont buf [] ∧ runLoop t buf (k :: rest) = runLoop t buf rest := by
  have hs := smartStep_eq t buf k
  rw [hk] at hs
  simp only [stepOfEvent] at hs
  exact ⟨hs, by simp only [runLoop, hs]⟩

/-- C7 witness: the control code 0x01 is ignored: buffer "h" for target "hi"
is unchanged, nothing is echoed, and the loop continues to the next unit. -/
theorem ignored_event_noop_witness :
    classify (some '\x01') = KeyEvent.ignored
    ∧ smartStep ['h','i'] ['h'] (some '\x01') = .cont ['h'] []
    ∧ runLoop ['h','i'] ['h'] [some '\x01', some '\r'] = runLoop ['h','i'] ['h'] [some '\r'] :=
  ⟨by decide,
    (ignored_event_noop ['h','i'] ['h'] (some '\x01') [] (by decide)).1,
    (ignored_event_noop ['h','i'] ['h'] (some '\x01') [some '\r'] (by decide)).2⟩

/-- C8: every call of the POSIX reader saves the terminal attributes before
entering raw mode and restores exactly the saved attributes before the call
returns, on the normal path and on the failing-read path alike, so the
final attributes always equal the initial ones; on a successful read
exactly one character is consumed from the stream, and on a failing read
the stream is unchanged. -/
theorem unix_getch_restores_attrs (t : Term) :
    ((getchUnixCall t).2).attrs = t.attrs
    ∧ (∀ c, (getchUnixCall t).1 = .ok c → t.input = c :: (getchUnixCall t).2.input)
    ∧ ((getchUnixCall t).1 = .error .ioError → (getchUnixCall t).2.input = t.input) := by
  obtain ⟨attrs, input⟩ := t
  cases input with
  | nil =>
    refine ⟨rfl, fun c hc => ?_, fun _ => rfl⟩
    exact absurd hc (by simp [getchUnixCall, readOne, setraw, tcgetattr, tcsetattr])
  | cons c0 cs =>
    refine ⟨rfl, fun c hc => ?_, fun hc => ?_⟩
    · have h1 : (Except.ok c0 : Except ReadErr Char) = .ok c := hc
      have h2 : c0 = c := by injection h1
      rw [← h2]; rfl
    · have h1 : (Except.ok c0 : Except ReadErr Char) = .error .ioError := hc
      exact absurd h1 (by simp)

/-- C8 witness: a terminal with attribute blob 5 and one pending character,
and a terminal with attribute blob 7 and an exhausted stream. -/
theorem unix_getch_restores_attrs_witness :
    (getchUnixCall ⟨5, ['x']⟩).2.attrs = 5
    ∧ (['x'] : List Char) = 'x' :: (getchUnixCall ⟨5, ['x']⟩).2.input
    ∧ (getchUnixCall ⟨7, []⟩).2.attrs = 7 :=
  ⟨(unix_getch_restores_attrs ⟨5, ['x']⟩).1,
    (unix_getch_restores_attrs ⟨5, ['x']⟩).2.1 'x' rfl,
    (unix_getch_restores_attrs ⟨7, []⟩).1⟩

/-- C9: the pre-seeded first character is not protected from editing: for
every non-empty target, Backspace then Enter returns the empty string, and
once the buffer is empty a subsequent AssistNext re-inserts the first
target character, so Backspace then Tab then Enter returns exactly that
character again. -/
theorem seed_not_protected (c : Char) (rest : List Char) :
    smartInput (c :: rest) [some '\x7f', some '\r'] = .submitted []
    ∧ smartInput (c :: rest) [some '\x7f', some '\t', some '\r'] = .submitted [c] := by
  have h1 : smartStep (c :: rest) [c] (some '\x7f') = .cont [] ["\x08 \x08"] := rfl
  have h3 : smartStep (c :: rest) [c] (some '\r') = .ret [c] ["\n"] := rfl
  have h2 : smartStep (c :: rest) [] (some '\t') = .cont [c] [String.mk [c]] := by
    have hcl : classify (some '\t') = KeyEvent.assistNext := by decide
    rw [smartStep_eq, hcl]
    simp [stepOfEvent]
  refine ⟨rfl, ?_⟩
  simp only [smartInput, List.get?_cons_zero, runLoop, h1, h2, h3]

/-- C10: for every non-empty target and every keystroke sequence,
smart_input never raises IndexError: the seeding step reads only the first
character, and the Tab branch reads target_word[current_len] only under its
guard current_len < len(target_word). -/
theorem no_index_error (t : List Char) (keys : List (Option Char)) (ht : t ≠ []) :
    smartInput t keys ≠ .indexError := by
  cases t with
  | nil => exact absurd rfl ht
  | cons t0 ts => exact runLoop_ne_indexError (t0 :: ts) keys [t0]

/-- C10 witness: target "hi" with three Tab keystrokes (two of which hit the
boundary guard) raises no IndexError. -/
theorem no_index_error_witness :
    (['h','i'] : List Char) ≠ []
    ∧ smartInput ['h','i'] [some '\t', some '\t', some '\t'] ≠ .indexError :=
  ⟨by decide, no_index_error ['h','i'] [some '\t', some '\t', some '\t'] (by decide)⟩

end SpellingMaster
